import Mathlib

/-!
Verification of the JuiceFS mount command layer (cmd/mount.go, cmd/flags.go,
cmd/main.go) and of the chunk-store contract it wires up.

Conventions of the embedding:
* Go `int`/`int64` values are modelled as `Int` (overflow is irrelevant at the
  magnitudes involved); `time.Duration` is an `Int` counting nanoseconds.
* Go `float64` flag values (`free-space-ratio`, `open-cache`) are modelled as
  `Rat`; the `float32` narrowing in `getChunkConf` is modelled as the identity
  (the claims under study only concern which knob is carried where).
* A Go `error` result is `Option String` (`none` = `nil`).
-/

namespace JFS

/-- Go `time.Second` as an `Int` count of nanoseconds. -/
def second : Int := 1000000000

/-- Relevant fields of `meta.Format` (declared in `pkg/meta`, not under `src/`);
the fields are the ones `getChunkConf` and `mount` read: `BlockSize` (KiB),
`Compression`, `UUID`. -/
structure Format where
  blockSize : Int
  compression : String
  uuid : String
deriving DecidableEq, Repr

/-- The command-line context: the values carried by the `cli.Context` for each
flag of `clientFlags()` in cmd/flags.go that the mount path reads.
`uploadDelaySet` models `c.IsSet("upload-delay")`. -/
structure CliCtx where
  getTimeout : Int
  putTimeout : Int
  ioRetries : Int
  maxUploads : Int
  maxDeletes : Int
  bufferSize : Int
  uploadLimit : Int
  downloadLimit : Int
  prefetch : Int
  writeback : Bool
  uploadDelay : Int
  uploadDelaySet : Bool
  cacheDir : String
  cacheSize : Int
  freeSpaceRatio : Rat
  cachePartialOnly : Bool
  noBGJob : Bool
  openCache : Rat
  subdir : String
deriving DecidableEq, Repr

/-- The default values of `clientFlags()` in cmd/flags.go (a flag with no
`Value:` field defaults to the Go zero value; `cache-size` is `100 << 10`). -/
def defaultCtx : CliCtx where
  getTimeout := 60
  putTimeout := 60
  ioRetries := 30
  maxUploads := 20
  maxDeletes := 2
  bufferSize := 300
  uploadLimit := 0
  downloadLimit := 0
  prefetch := 1
  writeback := false
  uploadDelay := 0
  uploadDelaySet := false
  cacheDir := "/var/jfsCache"
  cacheSize := 100 * 1024
  freeSpaceRatio := (1 : Rat) / 10
  cachePartialOnly := false
  noBGJob := false
  openCache := 0
  subdir := ""

/-- `chunk.Config` (declared in `pkg/chunk`, not under `src/`). Its fields are
the ones assigned by `getChunkConf`/`mount`, plus `MaxDeletes`, which is listed
by the spec's configuration surface (§6). Modelled from the spec for that one
field; a Go struct literal leaves unassigned fields at their zero value. -/
structure ChunkConfig where
  blockSize : Int
  compress : String
  getTimeout : Int
  putTimeout : Int
  maxUpload : Int
  maxDeletes : Int
  writeback : Bool
  uploadDelay : Int
  prefetch : Int
  bufferSize : Int
  uploadLimit : Int
  downloadLimit : Int
  cacheDir : String
  cacheSize : Int
  freeSpace : Rat
  cacheMode : Int
  cacheFullBlock : Bool
  autoCreate : Bool
deriving DecidableEq, Repr

/-- `meta.Config` fields assigned by `getMetaConf` (cmd/mount.go lines 255-266). -/
structure MetaConfig where
  retries : Int
  strict : Bool
  readOnly : Bool
  noBGJob : Bool
  openCache : Rat
  mountPoint : String
  subdir : String
  maxDeletes : Int
deriving DecidableEq, Repr

/-- `getMetaConf(c, mp, readOnly)` from cmd/mount.go: `Retries` is the constant
10; `MaxDeletes` comes from the `max-deletes` flag; `OpenCache` is the
`open-cache` flag (seconds) scaled to nanoseconds. -/
def getMetaConf (c : CliCtx) (mp : String) (readOnly : Bool) : MetaConfig where
  retries := 10
  strict := true
  readOnly := readOnly
  noBGJob := c.noBGJob
  openCache := c.openCache * 1000000000
  mountPoint := mp
  subdir := c.subdir
  maxDeletes := c.maxDeletes

/-- The OS path-list separator (`os.PathListSeparator` on Linux). -/
def pathListSep : String := ":"

/-- Modelled from the spec: `utils.SplitDir` (`pkg/utils`, not under `src/`)
splits the cache-dir value, a path-list string of one or more directories,
into its component directories (spec §6: "CacheDir (one or more paths)";
design note: "Multiple cache directories joined as a path-list string"). -/
def splitDir (s : String) : List String := s.splitOn pathListSep

/-- `filepath.Join(dir, uuid)`: appends `uuid` as the final path component. -/
def joinPath (dir uuid : String) : String := dir ++ "/" ++ uuid

/-- The cache-dir rewrite at the end of `getChunkConf` (cmd/mount.go lines
300-306): every value other than `"memory"` is split into directories, each
directory gets the volume UUID joined on as its final component, and the list
is rejoined with the OS path-list separator. -/
def cacheDirConf (cacheDir uuid : String) : String :=
  if cacheDir ≠ "memory" then
    String.intercalate pathListSep ((splitDir cacheDir).map (fun d => joinPath d uuid))
  else cacheDir

/-- `getChunkConf(c, format)` from cmd/mount.go lines 278-308. Every
right-hand side is the source's expression: `format.BlockSize * 1024`,
`time.Second * time.Duration(c.Int(...))`, `c.Int("buffer-size") << 20`,
`c.Int64("...-limit") * 1e6 / 8`, `os.FileMode(0600)`,
`!c.Bool("cache-partial-only")`. `MaxDeletes` and `UploadDelay` are not
assigned by the struct literal, hence hold the Go zero value 0. -/
def getChunkConf (c : CliCtx) (format : Format) : ChunkConfig where
  blockSize := format.blockSize * 1024
  compress := format.compression
  getTimeout := second * c.getTimeout
  putTimeout := second * c.putTimeout
  maxUpload := c.maxUploads
  maxDeletes := 0
  writeback := c.writeback
  uploadDelay := 0
  prefetch := c.prefetch
  bufferSize := c.bufferSize * 1048576
  uploadLimit := c.uploadLimit * 1000000 / 8
  downloadLimit := c.downloadLimit * 1000000 / 8
  cacheDir := cacheDirConf c.cacheDir format.uuid
  cacheSize := c.cacheSize
  freeSpace := c.freeSpaceRatio
  cacheMode := 384
  cacheFullBlock := !c.cachePartialOnly
  autoCreate := true

/-- The chunk configuration as `mount` passes it to `newStore` (cmd/mount.go
lines 347-350): `getChunkConf` followed by the unconditional assignment
`chunkConf.UploadDelay = c.Duration("upload-delay")`. -/
def mountChunkConf (c : CliCtx) (format : Format) : ChunkConfig :=
  { getChunkConf c format with uploadDelay := c.uploadDelay }

/-- The condition under which `mount` logs "delayed upload only work in
writeback mode" (cmd/mount.go lines 343-345). -/
def mountWarnsUploadDelay (c : CliCtx) : Bool :=
  !c.writeback && c.uploadDelaySet

/-- A Go `error` return: `none` is `nil`. -/
abbrev GoErr := Option String

/-- `meta.Slice` (declared in `pkg/meta`, not under `src/`): per the spec's
data model (§3), a slice is (chunk id, offset within chunk, length, block id). -/
structure Slice where
  id : Nat
  size : Nat
  off : Nat
  len : Nat
deriving DecidableEq, Repr

/-- The capability of `chunk.ChunkStore` that `registerMetaMsg` uses:
`Remove(chunkID uint64, length int) error`. -/
structure ChunkStoreIface where
  remove : Nat → Int → GoErr

/-- The two message types the metadata client delivers to the handlers
registered by `registerMetaMsg` (`meta.DeleteChunk`, `meta.CompactChunk`),
with their typed argument tuples. -/
inductive MetaMsg where
  | deleteChunk (chunkID : Nat) (blockSize : Nat)
  | compactChunk (slices : List Slice) (chunkID : Nat)
deriving DecidableEq, Repr

/-- `registerMetaMsg(m, store, chunkConf)` from cmd/mount.go lines 226-233,
as the dispatch function it installs on the metadata client: the
`DeleteChunk` handler is `store.Remove(args[0].(uint64), int(args[1].(uint32)))`
and the `CompactChunk` handler is
`vfs.Compact(*chunkConf, store, args[0].([]meta.Slice), args[1].(uint64))`;
each handler's error result is returned to the metadata caller.
`vfs.Compact` (`pkg/vfs`, not under `src/`) is kept abstract as `compact`. -/
def registerMetaMsg (store : ChunkStoreIface)
    (compact : ChunkConfig → ChunkStoreIface → List Slice → Nat → GoErr)
    (chunkConf : ChunkConfig) : MetaMsg → GoErr
  | .deleteChunk chunkID blockSize => store.remove chunkID (Int.ofNat blockSize)
  | .compactChunk slices chunkID => compact chunkConf store slices chunkID

/-! Model of the chunk store's `remove` operation. The implementation
(`pkg/chunk`) is not under `src/`; per the spec it deletes the addressed
block(s) from cache and from remote storage, and a not-found on
delete-of-nonexistent from the adapter is PermanentIO "treated as success"
(§4.1, §7). -/

/-- A block identity: (chunk id, block index, size-class) — spec §3. -/
abbrev BlockKey := Nat × Nat × Nat

/-- The errors the object-storage adapter's `delete` can yield in the model. -/
inductive ObjErr where
  | notFound
  | other (code : Nat)
deriving DecidableEq, Repr

/-- Modelled from the spec: the Object Storage Adapter's
`delete(key) -> error` (§6) on a set of stored keys; deleting an absent key
yields a not-found error, deleting a present key removes it. -/
def objectDelete (remote : List BlockKey) (k : BlockKey) :
    List BlockKey × Option ObjErr :=
  if k ∈ remote then (remote.erase k, none) else (remote, some .notFound)

/-- The chunk store's local state relevant to `remove`: the set of cached
block keys and the set of remotely stored block keys. -/
structure StoreState where
  cache : List BlockKey
  remote : List BlockKey
deriving DecidableEq, Repr

/-- Modelled from the spec: deleting one block — drop it from the cache,
issue the adapter delete, and treat the adapter's not-found as success
(spec §7: PermanentIO "not-found on delete-of-nonexistent, treated as
success"). -/
def deleteBlock (st : StoreState) (k : BlockKey) : StoreState × GoErr :=
  let cache' := st.cache.erase k
  let (remote', e) := objectDelete st.remote k
  let e' : GoErr := match e with
    | none => none
    | some .notFound => none
    | some (.other code) => some (toString code)
  (⟨cache', remote'⟩, e')

/-- Modelled from the spec: `remove` deletes every addressed block,
returning the first error among the per-block deletions. -/
def removeBlocks (st : StoreState) : List BlockKey → StoreState × GoErr
  | [] => (st, none)
  | k :: ks =>
    let (st', e) := deleteBlock st k
    let (st'', e'') := removeBlocks st' ks
    (st'', e <|> e'')

/-- Modelled from the spec: `remove(chunkID, blockSize)` (§4.1) deletes "the
addressed block(s)"; keys are "derived deterministically from (chunk id,
block index, size)" (§6), so the derivation is an abstract parameter
`keysOf`. -/
def removeChunk (keysOf : Nat → Nat → List BlockKey) (st : StoreState)
    (chunkID blockSize : Nat) : StoreState × GoErr :=
  removeBlocks st (keysOf chunkID blockSize)

/-! Model of the chunk store's write/flush/read path for a single chunk.
The engine (`pkg/chunk` cached store) is not under `src/`; the model follows
the spec: `write` buffers a slice; `flush` seals the buffered slices — in
caller-submission order, overlapping ranges resolving to the most recent
write (§5) — into blocks that become durable remotely and populate the local
cache; eviction drops a clean cached block, leaving the remote copy; `read`
serves each block from cache when present, otherwise re-fetches it from
remote (§2, §4.1, §4.2). -/

/-- A byte value. -/
abbrev Byte := Nat

/-- The content of a chunk as a partial map from byte offset to byte. -/
abbrev Content := Nat → Option Byte

/-- Overlay one write `(off, data)` onto existing content: offsets inside
`[off, off + data.length)` now read from `data`, others are unchanged. -/
def writeBytes (m : Content) (off : Nat) (data : List Byte) : Content :=
  fun a => if off ≤ a ∧ a < off + data.length then data.get? (a - off) else m a

/-- Overlay a list of writes in submission order (latest write wins). -/
def applyWrites (m : Content) (ws : List (Nat × List Byte)) : Content :=
  ws.foldl (fun m w => writeBytes m w.1 w.2) m

/-- Whether a pending write list touches block index `b` for block size `bs`
(its byte interval meets `[b*bs, (b+1)*bs)`). -/
def bufTouches (ws : List (Nat × List Byte)) (bs b : Nat) : Bool :=
  ws.any (fun w => decide (b * bs < w.1 + w.2.length) && decide (w.1 < (b + 1) * bs))

/-- The chunk-store state for one open chunk: the buffered (not yet flushed)
writes in submission order, the remotely durable content, the locally cached
copy of that content, and which block indices are present in the cache. -/
structure ChunkState where
  buf : List (Nat × List Byte)
  remote : Content
  cacheData : Content
  cachedBlk : Nat → Bool

/-- The state of a freshly opened chunk: nothing written anywhere. -/
def initChunk : ChunkState where
  buf := []
  remote := fun _ => none
  cacheData := fun _ => none
  cachedBlk := fun _ => false

/-- The operations exercised by the read-after-write property: buffer a
write, flush (seal and upload all buffered writes, populating the cache),
and evict one clean cached block (the remote copy stays). -/
inductive ChunkOp where
  | write (off : Nat) (data : List Byte)
  | flush
  | evict (blk : Nat)

/-- One step of the chunk store, at block size `bs`. -/
def chunkStep (bs : Nat) (s : ChunkState) : ChunkOp → ChunkState
  | .write off data => { s with buf := s.buf ++ [(off, data)] }
  | .flush =>
      { buf := []
        remote := applyWrites s.remote s.buf
        cacheData := applyWrites s.cacheData s.buf
        cachedBlk := fun b => s.cachedBlk b || bufTouches s.buf bs b }
  | .evict blk =>
      { s with cachedBlk := fun b => if b = blk then false else s.cachedBlk b }

/-- Run a sequence of operations from the initial state. -/
def runChunk (bs : Nat) (ops : List ChunkOp) : ChunkState :=
  ops.foldl (chunkStep bs) initChunk

/-- Read one byte: resolve its block, serve from the cache on a hit,
otherwise fetch from remote (§2 data flow, §4.1 `read`). -/
def readByte (bs : Nat) (s : ChunkState) (a : Nat) : Option Byte :=
  if s.cachedBlk (a / bs) then s.cacheData a else s.remote a

/-- Read a byte range `[off, off+len)`. -/
def readRange (bs : Nat) (s : ChunkState) (off len : Nat) : List (Option Byte) :=
  (List.range len).map (fun i => readByte bs s (off + i))

/-- The writes of an operation sequence, in submission order. -/
def writesOf : List ChunkOp → List (Nat × List Byte)
  | [] => []
  | .write off data :: t => (off, data) :: writesOf t
  | .flush :: t => writesOf t
  | .evict _ :: t => writesOf t

/-- The specified chunk content after a sequence of operations: the overlay
of all its writes in submission order ("the last bytes written to that
range"). -/
def specContent (ops : List ChunkOp) : Content :=
  applyWrites (fun _ => none) (writesOf ops)

/-! Embedding of `reorderOptions` and `isFlag` from cmd/main.go. A `cli.Flag`
is abstracted to the two things `isFlag` inspects: its name list and whether
it is a `BoolFlag`. -/

/-- A command-line flag: its names and whether it is a boolean flag. -/
structure Flag where
  names : List String
  isBool : Bool
deriving DecidableEq, Repr

/-- A CLI command: its name and its flag list. -/
structure Cmd where
  name : String
  flags : List Flag
deriving DecidableEq, Repr

/-- The CLI application: global flags and commands. -/
structure App where
  flags : List Flag
  commands : List Cmd
deriving DecidableEq, Repr

/-- `cli.VersionFlag` as set in `Main` (cmd/main.go lines 39-42): a boolean
flag named `version`/`V`. -/
def versionFlag : Flag := ⟨["version", "V"], true⟩

/-- `cli.HelpFlag`: the boolean `help`/`h` flag appended to every command's
flags in `reorderOptions`. -/
def helpFlag : Flag := ⟨["help", "h"], true⟩

/-- `strings.HasPrefix(s, pre)`, on the character lists of the strings. -/
def strStartsWith (s pre : String) : Bool := pre.data.isPrefixOf s.data

/-- `strings.Contains(s, c)` for a one-character needle. -/
def strContains (s : String) (c : Char) : Bool := s.data.contains c

/-- `strings.TrimLeft(option, "-")`: drop every leading dash. -/
def trimDashes (s : String) : String := ⟨s.data.dropWhile (· = '-')⟩

/-- The per-name test inside `isFlag`: `option == name ||
strings.HasPrefix(option, name+"=")` on the dash-trimmed option. -/
def nameMatches (o name : String) : Bool :=
  o == name || strStartsWith o (name ++ "=")

/-- `isFlag(flags, option)` from cmd/main.go lines 168-183: returns (is a
recognized flag, takes its value as the following argument). An option not
starting with `-` is not a flag; a match returns `hasValue = !isBool &&
!strings.Contains(option, "=")`. -/
def isFlag (flags : List Flag) (option : String) : Bool × Bool :=
  if !strStartsWith option "-" then (false, false)
  else
    let o := trimDashes option
    match flags.findSome? (fun f =>
        if f.names.any (nameMatches o) then
          some (!f.isBool && !(strContains o '=')) else none) with
    | some hasValue => (true, hasValue)
    | none => (false, false)

/-- The first loop of `reorderOptions` (cmd/main.go lines 189-200): split the
arguments into recognized flags (with the following argument when the flag
takes a value) and the rest, both in original order. A value-taking flag in
final position indexes past the end of the slice in the source (`args[i]`
after `i++`), modelled as `none`. -/
def scanArgs (flags : List Flag) : List String → Option (List String × List String)
  | [] => some ([], [])
  | a :: rest =>
    if (isFlag flags a).1 then
      if (isFlag flags a).2 then
        match rest with
        | [] => none
        | v :: rest' =>
          match scanArgs flags rest' with
          | none => none
          | some (ns, os) => some (a :: v :: ns, os)
      else
        match scanArgs flags rest with
        | none => none
        | some (ns, os) => some (a :: ns, os)
    else
      match scanArgs flags rest with
      | none => none
      | some (ns, os) => some (ns, a :: os)

/-- The second loop of `reorderOptions` (cmd/main.go lines 221-235): like the
first, but an unrecognized option starting with `-` is a fatal error
(`logger.Fatalf`) unless `--generate-bash-completion` occurs among the
command arguments; fatal exit is modelled as `none`. -/
def scanCmdArgs (flags : List Flag) (allowDashed : Bool) :
    List String → Option (List String × List String)
  | [] => some ([], [])
  | a :: rest =>
    if (isFlag flags a).1 then
      if (isFlag flags a).2 then
        match rest with
        | [] => none
        | v :: rest' =>
          match scanCmdArgs flags allowDashed rest' with
          | none => none
          | some (ns, os) => some (a :: v :: ns, os)
      else
        match scanCmdArgs flags allowDashed rest with
        | none => none
        | some (ns, os) => some (a :: ns, os)
    else
      if strStartsWith a "-" && !allowDashed then none
      else
        match scanCmdArgs flags allowDashed rest with
        | none => none
        | some (ns, os) => some (ns, a :: os)

/-- The command lookup in `reorderOptions` (cmd/main.go lines 206-211): the
loop has no break, so the last command with a matching name wins. -/
def lookupCmd (cmds : List Cmd) (name : String) : Option Cmd :=
  cmds.foldl (fun acc c => if c.name == name then some c else acc) none

/-- `reorderOptions(app, args)` from cmd/main.go lines 185-237: keep the
program name first; move recognized global flags (with their values) before
the command name and recognized command flags after it; when the command
name is not recognized, append all remaining arguments unchanged. `none`
models the fatal exit on an unknown dashed command option (and the source's
out-of-range panic on a trailing value-taking flag; `args[0]` on an empty
vector likewise panics). -/
def reorderOptions (app : App) : List String → Option (List String)
  | [] => none
  | a0 :: rest =>
    match scanArgs (app.flags ++ [versionFlag]) rest with
    | none => none
    | some (newArgs, others) =>
      match others with
      | [] => some (a0 :: newArgs)
      | cmdName :: cargs =>
        match lookupCmd app.commands cmdName with
        | none => some (a0 :: newArgs ++ cmdName :: cargs)
        | some cmd =>
          let allow := cargs.contains "--generate-bash-completion"
          match scanCmdArgs (cmd.flags ++ [helpFlag]) allow cargs with
          | none => none
          | some (ns, os) => some (a0 :: newArgs ++ cmdName :: (ns ++ os))

/-! Theorems. -/

/-- A concrete volume format used by witnesses and counterexamples. -/
def fmt0 : Format := ⟨4096, "lz4", "8f1d2c"⟩

/-- Claim C1: for every DeleteChunk message with arguments (chunkID,
blockSize), the registered handler invokes the store's Remove with exactly
that chunk id and block size and returns Remove's error result to the
metadata caller; for every CompactChunk message with arguments (slices,
chunkID), the registered handler invokes Compact with the chunk
configuration, the store, those slices and that chunk id, and returns its
error result. -/
theorem c1_meta_msg_handlers (store : ChunkStoreIface)
    (compact : ChunkConfig → ChunkStoreIface → List Slice → Nat → GoErr)
    (conf : ChunkConfig) (chunkID blockSize : Nat)
    (slices : List Slice) (cid : Nat) :
    registerMetaMsg store compact conf (.deleteChunk chunkID blockSize) =
      store.remove chunkID (Int.ofNat blockSize) ∧
    registerMetaMsg store compact conf (.compactChunk slices cid) =
      compact conf store slices cid :=
  ⟨rfl, rfl⟩

/-- Counterexample to claim C2 as stated: with the `max-deletes` flag set to
5, the chunk configuration handed to the cached store carries MaxDeletes 0
(the Go zero value — `getChunkConf` never assigns it), while the value 5 is
populated into the metadata client's configuration instead. So the knob
MaxDeletes from the enumerated set is not populated into the chunk store's
configuration object. -/
theorem c2_counterexample :
    (mountChunkConf { defaultCtx with maxDeletes := 5 } fmt0).maxDeletes = 0 ∧
    (getMetaConf { defaultCtx with maxDeletes := 5 } "/mnt/jfs" false).maxDeletes = 5 ∧
    (0 : Int) ≠ 5 :=
  ⟨rfl, rfl, by decide⟩

/-- Claim C2 (amended): every knob of the enumerated set except MaxDeletes
is consumed from the surrounding process (flags and volume format) and
populated into the chunk configuration used to construct the cached store
(UploadDelay being assigned by `mount` right after `getChunkConf`);
MaxDeletes is instead populated into the metadata client's configuration,
and the chunk configuration's MaxDeletes is left at zero. -/
theorem c2_amended (c : CliCtx) (f : Format) (mp : String) (ro : Bool) :
    (mountChunkConf c f).blockSize = f.blockSize * 1024 ∧
    (mountChunkConf c f).compress = f.compression ∧
    (mountChunkConf c f).getTimeout = second * c.getTimeout ∧
    (mountChunkConf c f).putTimeout = second * c.putTimeout ∧
    (mountChunkConf c f).maxUpload = c.maxUploads ∧
    (mountChunkConf c f).writeback = c.writeback ∧
    (mountChunkConf c f).uploadDelay = c.uploadDelay ∧
    (mountChunkConf c f).prefetch = c.prefetch ∧
    (mountChunkConf c f).bufferSize = c.bufferSize * 1048576 ∧
    (mountChunkConf c f).uploadLimit = c.uploadLimit * 1000000 / 8 ∧
    (mountChunkConf c f).downloadLimit = c.downloadLimit * 1000000 / 8 ∧
    (mountChunkConf c f).cacheDir = cacheDirConf c.cacheDir f.uuid ∧
    (mountChunkConf c f).cacheSize = c.cacheSize ∧
    (mountChunkConf c f).freeSpace = c.freeSpaceRatio ∧
    (mountChunkConf c f).cacheFullBlock = !c.cachePartialOnly ∧
    (mountChunkConf c f).autoCreate = true ∧
    (mountChunkConf c f).maxDeletes = 0 ∧
    (getMetaConf c mp ro).maxDeletes = c.maxDeletes :=
  ⟨rfl, rfl, rfl, rfl, rfl, rfl, rfl, rfl, rfl, rfl, rfl, rfl, rfl, rfl,
   rfl, rfl, rfl, rfl⟩

/-- Counterexample to claim C5 as stated: the chunk store configuration
built by the mount command is identical whether `io-retries` is 7 or its
default 30 — the flag's value is not consumed into that configuration
(`getChunkConf` never reads it; the metadata configuration's Retries is the
constant 10). -/
theorem c5_counterexample :
    mountChunkConf { defaultCtx with ioRetries := 7 } fmt0 =
      mountChunkConf defaultCtx fmt0 ∧
    (7 : Int) ≠ 30 :=
  ⟨rfl, by decide⟩

/-- Claim C5 (amended): the `io-retries` command-line flag exists with
default 30, but its value is not consumed into the chunk store configuration
built by the mount command: the configuration is independent of the value
given for `io-retries`. -/
theorem c5_amended (c : CliCtx) (v : Int) (f : Format) :
    defaultCtx.ioRetries = 30 ∧
    getChunkConf { c with ioRetries := v } f = getChunkConf c f ∧
    mountChunkConf { c with ioRetries := v } f = mountChunkConf c f := by
  refine ⟨rfl, ?_, ?_⟩ <;> cases c <;> rfl

/-- A concrete context with two cache directories, for the C6 witness. -/
def c6ctx : CliCtx := { defaultCtx with cacheDir := "/a:/b" }

/-- Claim C6: for every cache-dir value other than "memory", the configured
CacheDir is the user-supplied directory list, same count and order, each
directory with the volume UUID joined on as its final path component, the
entries rejoined with the OS path-list separator; the value "memory" is
passed through unchanged. -/
theorem c6_cacheDir (c : CliCtx) (f : Format) (h : c.cacheDir ≠ "memory") :
    (getChunkConf c f).cacheDir =
      String.intercalate pathListSep
        ((splitDir c.cacheDir).map (fun d => joinPath d f.uuid)) ∧
    ((splitDir c.cacheDir).map (fun d => joinPath d f.uuid)).length =
      (splitDir c.cacheDir).length ∧
    cacheDirConf "memory" f.uuid = "memory" := by
  refine ⟨?_, List.length_map _ _, ?_⟩
  · show cacheDirConf c.cacheDir f.uuid = _
    rw [cacheDirConf, if_pos h]
  · rw [cacheDirConf]
    simp

/-- Witness for C6 at cache-dir "/a:/b": the configured value is
"/a/8f1d2c:/b/8f1d2c". -/
theorem c6_cacheDir_witness :
    (getChunkConf c6ctx fmt0).cacheDir =
      String.intercalate pathListSep
        ((splitDir c6ctx.cacheDir).map (fun d => joinPath d fmt0.uuid)) ∧
    ((splitDir c6ctx.cacheDir).map (fun d => joinPath d fmt0.uuid)).length =
      (splitDir c6ctx.cacheDir).length ∧
    cacheDirConf "memory" fmt0.uuid = "memory" :=
  c6_cacheDir c6ctx fmt0 (by decide)

/-- Claim C7: CacheFullBlock is exactly the negation of the
cache-partial-only flag; the flag defaults to false, so full-block caching
is on by default. -/
theorem c7_cacheFullBlock (c : CliCtx) (f : Format) :
    (getChunkConf c f).cacheFullBlock = !c.cachePartialOnly ∧
    defaultCtx.cachePartialOnly = false ∧
    (getChunkConf defaultCtx f).cacheFullBlock = true :=
  ⟨rfl, rfl, rfl⟩

/-- Claim C8: unit conversions of the configuration builder — BlockSize is
format.BlockSize (KiB) times 1024 bytes; BufferSize is the buffer-size flag
(MB) times 2^20 bytes; UploadLimit and DownloadLimit are the respective
flags (Mbps) times 1e6 over 8 bytes per second; GetTimeout and PutTimeout
are the flag values in whole seconds (nanosecond durations). -/
theorem c8_unit_conversions (c : CliCtx) (f : Format) :
    (getChunkConf c f).blockSize = f.blockSize * 1024 ∧
    (getChunkConf c f).bufferSize = c.bufferSize * 2 ^ 20 ∧
    (getChunkConf c f).uploadLimit = c.uploadLimit * 1000000 / 8 ∧
    (getChunkConf c f).downloadLimit = c.downloadLimit * 1000000 / 8 ∧
    (getChunkConf c f).getTimeout = second * c.getTimeout ∧
    (getChunkConf c f).putTimeout = second * c.putTimeout := by
  refine ⟨rfl, ?_, rfl, rfl, rfl, rfl⟩
  show c.bufferSize * 1048576 = c.bufferSize * 2 ^ 20
  norm_num

/-- Claim C9: UploadDelay is copied into the chunk configuration from the
upload-delay flag unconditionally by `mount` (the struct literal leaves it
0; the assignment after `getChunkConf` carries the flag value even when the
warning condition — upload-delay set without writeback — holds). -/
theorem c9_uploadDelay (c : CliCtx) (f : Format) :
    (getChunkConf c f).uploadDelay = 0 ∧
    (mountChunkConf c f).uploadDelay = c.uploadDelay ∧
    mountWarnsUploadDelay c = (!c.writeback && c.uploadDelaySet) :=
  ⟨rfl, rfl, rfl⟩

/-- Deleting one absent block leaves the state unchanged and succeeds: the
cache erase is a no-op and the adapter's not-found is mapped to success. -/
theorem deleteBlock_absent (st : StoreState) (k : BlockKey)
    (hc : k ∉ st.cache) (hr : k ∉ st.remote) :
    deleteBlock st k = (st, none) := by
  simp only [deleteBlock, objectDelete, if_neg hr]
  rw [List.erase_of_not_mem hc]

/-- Removing a list of blocks all absent from cache and remote leaves the
state unchanged and returns success. -/
theorem removeBlocks_absent :
    ∀ (ks : List BlockKey) (st : StoreState),
      (∀ k ∈ ks, k ∉ st.cache ∧ k ∉ st.remote) →
      removeBlocks st ks = (st, none)
  | [], _, _ => rfl
  | k :: ks, st, h => by
    have hk := h k (List.mem_cons_self k ks)
    simp only [removeBlocks, deleteBlock_absent st k hk.1 hk.2,
      removeBlocks_absent ks st (fun k' hk' => h k' (List.mem_cons_of_mem _ hk'))]
    rfl

/-- Claim C4: the remove operation (the handler of the metadata engine's
delete message) is idempotent — for every chunk id and block size, deleting
a block that is already absent from cache and remote storage returns
success, not an error (and leaves the store unchanged). -/
theorem c4_remove_absent_success (keysOf : Nat → Nat → List BlockKey)
    (st : StoreState) (chunkID blockSize : Nat)
    (h : ∀ k ∈ keysOf chunkID blockSize, k ∉ st.cache ∧ k ∉ st.remote) :
    removeChunk keysOf st chunkID blockSize = (st, none) :=
  removeBlocks_absent _ st h

/-- Witness for C4: removing chunk 11's block (key (11, 0, 4096)) from a
store that holds only chunk 1's block succeeds and changes nothing. -/
theorem c4_remove_witness :
    removeChunk (fun chunkID bs => [(chunkID, 0, bs)])
        ⟨[(1, 0, 4096)], [(1, 0, 4096)]⟩ 11 4096 =
      (⟨[(1, 0, 4096)], [(1, 0, 4096)]⟩, none) :=
  c4_remove_absent_success (fun chunkID bs => [(chunkID, 0, bs)])
    ⟨[(1, 0, 4096)], [(1, 0, 4096)]⟩ 11 4096 (by decide)

/-- The logical content of a chunk state: the durable content with the
pending buffered writes overlaid. -/
def logical (s : ChunkState) : Content :=
  applyWrites s.remote s.buf

/-- Flushing keeps the cached copy in lockstep with the remote copy: every
step preserves `cacheData = remote`. -/
theorem foldl_cache_eq (bs : Nat) (ops : List ChunkOp) :
    ∀ s : ChunkState, s.cacheData = s.remote →
      (ops.foldl (chunkStep bs) s).cacheData = (ops.foldl (chunkStep bs) s).remote := by
  induction ops with
  | nil => exact fun s h => h
  | cons op t ih =>
    intro s h
    rw [List.foldl_cons]
    exact ih _ (by cases op <;> simp [chunkStep, h])

/-- Running operations composes their writes onto the logical content in
submission order. -/
theorem foldl_logical (bs : Nat) (ops : List ChunkOp) :
    ∀ s : ChunkState, logical (ops.foldl (chunkStep bs) s) =
      applyWrites (logical s) (writesOf ops) := by
  induction ops with
  | nil => exact fun s => rfl
  | cons op t ih =>
    intro s
    rw [List.foldl_cons, ih]
    cases op with
    | write off data =>
      simp [logical, chunkStep, applyWrites, writesOf, List.foldl_append]
    | flush => simp [logical, chunkStep, applyWrites, writesOf]
    | evict blk => rfl

/-- Claim C3: for all sequences of write followed by flush to a chunk (every
buffered write flushed by the end), a read of any byte range returns exactly
the last bytes written to that range — the submission-order overlay of all
writes — including after cached blocks are evicted and the data is re-read
from remote storage. -/
theorem c3_read_after_write (bs : Nat) (ops : List ChunkOp)
    (hflushed : (runChunk bs ops).buf = []) (off len : Nat) :
    readRange bs (runChunk bs ops) off len =
      (List.range len).map (fun i => specContent ops (off + i)) := by
  have hc : (runChunk bs ops).cacheData = (runChunk bs ops).remote :=
    foldl_cache_eq bs ops initChunk rfl
  have hrem : (runChunk bs ops).remote = specContent ops := by
    have hl : logical (runChunk bs ops) = applyWrites (logical initChunk) (writesOf ops) :=
      foldl_logical bs ops initChunk
    have h2 : logical (runChunk bs ops) = (runChunk bs ops).remote := by
      unfold logical
      rw [hflushed]
      rfl
    rw [← h2, hl]
    rfl
  unfold readRange
  refine List.map_congr_left (fun i _ => ?_)
  simp only [readByte, hc, hrem, ite_self]

/-- Concrete operations for the C3 witness: write "AAAA" at offset 0, flush,
write "BB" at offset 1, flush, then evict block 0. -/
def c3ops : List ChunkOp :=
  [.write 0 [65, 65, 65, 65], .flush, .write 1 [66, 66], .flush, .evict 0]

/-- Witness for C3 at block size 4: after the two flushed writes and an
eviction, reading offset 0 length 4 returns the overlay of the writes —
concretely "ABBA" (the later write's overlap wins), served from remote after
the eviction. -/
theorem c3_read_after_write_witness :
    readRange 4 (runChunk 4 c3ops) 0 4 =
      (List.range 4).map (fun i => specContent c3ops (0 + i)) ∧
    (runChunk 4 c3ops).buf = [] ∧
    readRange 4 (runChunk 4 c3ops) 0 4 = [some 65, some 66, some 66, some 65] ∧
    (runChunk 4 c3ops).cachedBlk 0 = false :=
  ⟨c3_read_after_write 4 c3ops (by decide) 0 4, by decide, by decide, by decide⟩

/-- The first scan loop only redistributes its arguments: the recognized
flags (with their values) and the remaining arguments together are a
permutation of the input. Strong induction on the length bound `n`. -/
theorem scanArgs_perm_aux (flags : List Flag) :
    ∀ (n : Nat) (l : List String), l.length ≤ n → ∀ ns os,
      scanArgs flags l = some (ns, os) → (ns ++ os).Perm l := by
  intro n
  induction n with
  | zero =>
    intro l hl ns os h
    obtain rfl : l = [] := List.eq_nil_of_length_eq_zero (Nat.le_zero.mp hl)
    simp only [scanArgs, Option.some.injEq, Prod.mk.injEq] at h
    obtain ⟨h1, h2⟩ := h
    subst h1
    subst h2
    simp
  | succ n ih =>
    intro l hl ns os h
    cases l with
    | nil =>
      simp only [scanArgs, Option.some.injEq, Prod.mk.injEq] at h
      obtain ⟨h1, h2⟩ := h
      subst h1
      subst h2
      simp
    | cons a rest =>
      rw [scanArgs.eq_def] at h
      simp only [] at h
      simp only [List.length_cons] at hl
      split at h
      · split at h
        · split at h
          · exact absurd h (by simp)
          · rename_i v rest'
            split at h
            · exact absurd h (by simp)
            · rename_i p ns1 os1 heq
              simp only [Option.some.injEq, Prod.mk.injEq] at h
              obtain ⟨h1, h2⟩ := h
              subst h1
              subst h2
              have hp := ih rest'
                (by simp only [List.length_cons] at hl ⊢; omega) ns1 os1 heq
              exact (hp.cons v).cons a
        · split at h
          · exact absurd h (by simp)
          · rename_i p ns1 os1 heq
            simp only [Option.some.injEq, Prod.mk.injEq] at h
            obtain ⟨h1, h2⟩ := h
            subst h1
            subst h2
            have hp := ih rest (by omega) ns1 os1 heq
            exact hp.cons a
      · split at h
        · exact absurd h (by simp)
        · rename_i p ns1 os1 heq
          simp only [Option.some.injEq, Prod.mk.injEq] at h
          obtain ⟨h1, h2⟩ := h
          subst h1
          subst h2
          have hp := ih rest (by omega) ns1 os1 heq
          exact List.Perm.trans List.perm_middle (hp.cons a)

/-- The first scan loop's output is a permutation of its input. -/
theorem scanArgs_perm (flags : List Flag) (l ns os : List String)
    (h : scanArgs flags l = some (ns, os)) : (ns ++ os).Perm l :=
  scanArgs_perm_aux flags l.length l le_rfl ns os h

/-- The second (command) scan loop only redistributes its arguments as well. -/
theorem scanCmdArgs_perm_aux (flags : List Flag) (allowDashed : Bool) :
    ∀ (n : Nat) (l : List String), l.length ≤ n → ∀ ns os,
      scanCmdArgs flags allowDashed l = some (ns, os) → (ns ++ os).Perm l := by
  intro n
  induction n with
  | zero =>
    intro l hl ns os h
    obtain rfl : l = [] := List.eq_nil_of_length_eq_zero (Nat.le_zero.mp hl)
    simp only [scanCmdArgs, Option.some.injEq, Prod.mk.injEq] at h
    obtain ⟨h1, h2⟩ := h
    subst h1
    subst h2
    simp
  | succ n ih =>
    intro l hl ns os h
    cases l with
    | nil =>
      simp only [scanCmdArgs, Option.some.injEq, Prod.mk.injEq] at h
      obtain ⟨h1, h2⟩ := h
      subst h1
      subst h2
      simp
    | cons a rest =>
      rw [scanCmdArgs.eq_def] at h
      simp only [] at h
      simp only [List.length_cons] at hl
      split at h
      · split at h
        · split at h
          · exact absurd h (by simp)
          · rename_i v rest'
            split at h
            · exact absurd h (by simp)
            · rename_i p ns1 os1 heq
              simp only [Option.some.injEq, Prod.mk.injEq] at h
              obtain ⟨h1, h2⟩ := h
              subst h1
              subst h2
              have hp := ih rest'
                (by simp only [List.length_cons] at hl ⊢; omega) ns1 os1 heq
              exact (hp.cons v).cons a
        · split at h
          · exact absurd h (by simp)
          · rename_i p ns1 os1 heq
            simp only [Option.some.injEq, Prod.mk.injEq] at h
            obtain ⟨h1, h2⟩ := h
            subst h1
            subst h2
            have hp := ih rest (by omega) ns1 os1 heq
            exact hp.cons a
      · split at h
        · exact absurd h (by simp)
        · split at h
          · exact absurd h (by simp)
          · rename_i p ns1 os1 heq
            simp only [Option.some.injEq, Prod.mk.injEq] at h
            obtain ⟨h1, h2⟩ := h
            subst h1
            subst h2
            have hp := ih rest (by omega) ns1 os1 heq
            exact List.Perm.trans List.perm_middle (hp.cons a)

/-- The second scan loop's output is a permutation of its input. -/
theorem scanCmdArgs_perm (flags : List Flag) (allowDashed : Bool)
    (l ns os : List String) (h : scanCmdArgs flags allowDashed l = some (ns, os)) :
    (ns ++ os).Perm l :=
  scanCmdArgs_perm_aux flags allowDashed l.length l le_rfl ns os h

/-- Claim C10: whenever reorderOptions returns (no unknown dashed option
caused a fatal exit), the result is a permutation of the input containing
exactly the same elements, the program name stays first, and the result's
exact shape is characterized in every case in terms of the two scan loops:
with no command the result is the program name followed by the recognized
global flags (with their values); with a recognized command the recognized
global flags come before the command name and the recognized command flags
(with their values) come right after it, followed by the remaining
arguments; with an unrecognized command name all remaining arguments are
appended unchanged in their original order after the program name and the
recognized global flags. -/
theorem c10_reorderOptions_perm (app : App) (args res : List String)
    (h : reorderOptions app args = some res) :
    res.Perm args ∧ res.head? = args.head? ∧
    (∀ a0 rest ns others, args = a0 :: rest →
      scanArgs (app.flags ++ [versionFlag]) rest = some (ns, others) →
      (others = [] → res = a0 :: ns) ∧
      (∀ cmdName cargs, others = cmdName :: cargs →
        (lookupCmd app.commands cmdName = none →
          res = a0 :: (ns ++ cmdName :: cargs)) ∧
        (∀ cmd ns2 os2, lookupCmd app.commands cmdName = some cmd →
          scanCmdArgs (cmd.flags ++ [helpFlag])
              (cargs.contains "--generate-bash-completion") cargs =
            some (ns2, os2) →
          res = a0 :: (ns ++ cmdName :: (ns2 ++ os2))))) := by
  match args with
  | [] => exact absurd h (by simp [reorderOptions])
  | a0 :: rest =>
    simp only [reorderOptions] at h
    split at h
    · exact absurd h (by simp)
    · rename_i p newArgs others heq1
      split at h
      · -- others = []
        simp only [Option.some.injEq] at h
        subst h
        refine ⟨?_, rfl, ?_⟩
        · have hp := scanArgs_perm _ rest newArgs [] heq1
          rw [List.append_nil] at hp
          exact hp.cons a0
        · intro a0' rest' ns' others' hargs hscan
          obtain ⟨rfl, rfl⟩ : a0' = a0 ∧ rest' = rest := by
            injection hargs with h1 h2
            exact ⟨h1.symm, h2.symm⟩
          rw [heq1] at hscan
          simp only [Option.some.injEq, Prod.mk.injEq] at hscan
          obtain ⟨rfl, rfl⟩ : newArgs = ns' ∧ [] = others' := hscan
          refine ⟨fun _ => rfl, ?_⟩
          intro cmdName cargs hcons
          exact absurd hcons (by simp)
      · rename_i cmdName cargs
        split at h
        · -- command not recognized
          simp only [Option.some.injEq] at h
          subst h
          rename_i hlook
          refine ⟨?_, rfl, ?_⟩
          · have hp := scanArgs_perm _ rest newArgs (cmdName :: cargs) heq1
            exact hp.cons a0
          · intro a0' rest' ns' others' hargs hscan
            obtain ⟨rfl, rfl⟩ : a0' = a0 ∧ rest' = rest := by
              injection hargs with h1 h2
              exact ⟨h1.symm, h2.symm⟩
            rw [heq1] at hscan
            simp only [Option.some.injEq, Prod.mk.injEq] at hscan
            obtain ⟨rfl, rfl⟩ : newArgs = ns' ∧ cmdName :: cargs = others' := hscan
            refine ⟨fun habs => absurd habs (by simp), ?_⟩
            intro cmdName' cargs' hcons
            obtain ⟨rfl, rfl⟩ : cmdName = cmdName' ∧ cargs = cargs' := by
              injection hcons with h1 h2
              exact ⟨h1, h2⟩
            refine ⟨fun _ => rfl, ?_⟩
            intro cmd' ns2' os2' hlk _
            rw [hlook] at hlk
            exact absurd hlk (by simp)
        · rename_i cmd hlook
          split at h
          · exact absurd h (by simp)
          · rename_i p2 ns2 os2 heq2
            simp only [Option.some.injEq] at h
            subst h
            refine ⟨?_, rfl, ?_⟩
            · have hp := scanArgs_perm _ rest newArgs (cmdName :: cargs) heq1
              have hp2 := scanCmdArgs_perm _ _ cargs ns2 os2 heq2
              have : (newArgs ++ cmdName :: (ns2 ++ os2)).Perm
                  (newArgs ++ cmdName :: cargs) :=
                (hp2.cons cmdName).append_left newArgs
              exact (this.trans hp).cons a0
            · intro a0' rest' ns' others' hargs hscan
              obtain ⟨rfl, rfl⟩ : a0' = a0 ∧ rest' = rest := by
                injection hargs with h1 h2
                exact ⟨h1.symm, h2.symm⟩
              rw [heq1] at hscan
              simp only [Option.some.injEq, Prod.mk.injEq] at hscan
              obtain ⟨rfl, rfl⟩ : newArgs = ns' ∧ cmdName :: cargs = others' := hscan
              refine ⟨fun habs => absurd habs (by simp), ?_⟩
              intro cmdName' cargs' hcons
              obtain ⟨rfl, rfl⟩ : cmdName = cmdName' ∧ cargs = cargs' := by
                injection hcons with h1 h2
                exact ⟨h1, h2⟩
              refine ⟨fun hn => ?_, ?_⟩
              · rw [hlook] at hn
                exact absurd hn (by simp)
              · intro cmd' ns2' os2' hlk hsc
                rw [hlook] at hlk
                simp only [Option.some.injEq] at hlk
                subst hlk
                rw [heq2] at hsc
                simp only [Option.some.injEq, Prod.mk.injEq] at hsc
                obtain ⟨rfl, rfl⟩ : ns2 = ns2' ∧ os2 = os2' := hsc
                rfl

/-- A concrete CLI application for the C10 witness: two boolean global
flags and a `mount` command with a value-taking `cache-dir` flag and a
boolean `writeback` flag. -/
def app0 : App :=
  ⟨[⟨["verbose", "debug", "v"], true⟩, ⟨["quiet", "q"], true⟩],
   [⟨"mount", [⟨["cache-dir"], false⟩, ⟨["writeback"], true⟩]⟩]⟩

/-- A concrete argument vector for the C10 witness. -/
def args0 : List String :=
  ["juicefs", "mount", "--verbose", "--cache-dir", "/c", "MP"]

/-- What reorderOptions produces on `args0`: the global `--verbose` moved
before the command, `--cache-dir` with its value `/c` after it. -/
def res0 : List String :=
  ["juicefs", "--verbose", "mount", "--cache-dir", "/c", "MP"]

/-- Witness for C10 at the concrete application and argument vector. -/
theorem c10_reorderOptions_witness :
    res0.Perm args0 ∧ res0.head? = args0.head? ∧
    (∀ a0 rest ns others, args0 = a0 :: rest →
      scanArgs (app0.flags ++ [versionFlag]) rest = some (ns, others) →
      (others = [] → res0 = a0 :: ns) ∧
      (∀ cmdName cargs, others = cmdName :: cargs →
        (lookupCmd app0.commands cmdName = none →
          res0 = a0 :: (ns ++ cmdName :: cargs)) ∧
        (∀ cmd ns2 os2, lookupCmd app0.commands cmdName = some cmd →
          scanCmdArgs (cmd.flags ++ [helpFlag])
              (cargs.contains "--generate-bash-completion") cargs =
            some (ns2, os2) →
          res0 = a0 :: (ns ++ cmdName :: (ns2 ++ os2))))) :=
  c10_reorderOptions_perm app0 args0 res0 (by decide)

end JFS
